import Mathlib

/-!
Verification development for the multi-chain balance aggregation engine
specified by this repository, together with the repository's own
refactoring scripts.

The repository itself contains only Python maintenance scripts; the
balance engine (BalanceService and its helpers) lives in the Swift
application they refactor, which is not part of the repository.  The
engine components (Amount Normalizer, Backoff Tracker, Cache Store,
Fetch Task Supervisor) are therefore modelled from the specification,
each such definition carrying a doc comment starting `Modelled from the
spec:`.  The Python scripts `contrast_check.py`, `fix_previews.py` and
`phase6b_remove_balance_methods.py` are in the repository and are
embedded directly from their source.

Python strings are embedded as `List Char`; machine integers do not
occur (Python integers are unbounded, embedded as `ℕ`/`ℤ`); decimal
arithmetic is embedded as `ℚ`.
-/

/-! ## Shared digit parsing (models Python `int(s, base)` on plain digit strings) -/

/-- Value of a single hexadecimal digit character, `none` for a non-digit. -/
def hexDigitVal (c : Char) : Option ℕ :=
  if '0' ≤ c ∧ c ≤ '9' then some (c.toNat - '0'.toNat)
  else if 'a' ≤ c ∧ c ≤ 'f' then some (c.toNat - 'a'.toNat + 10)
  else if 'A' ≤ c ∧ c ≤ 'F' then some (c.toNat - 'A'.toNat + 10)
  else none

/-- Value of a digit character in a given base (base 10 or 16 here). -/
def digitVal (base : ℕ) (c : Char) : Option ℕ :=
  match hexDigitVal c with
  | some v => if v < base then some v else none
  | none => none

/-- Accumulating parse of a digit string in the given base. -/
def parseDigitsAux (base : ℕ) : List Char → ℕ → Option ℕ
  | [], acc => some acc
  | c :: cs, acc =>
    match digitVal base c with
    | some v => parseDigitsAux base cs (acc * base + v)
    | none => none

/-- Parse of a non-empty digit string in the given base; `none` on the
empty string or any non-digit character, as Python `int` raises there. -/
def parseDigits (base : ℕ) (l : List Char) : Option ℕ :=
  if l = [] then none else parseDigitsAux base l 0

/-! ## Amount Normalizer (spec section 4.5)

The Swift implementation (`decimalFromHex`, `decimalDividingByPowerOfTen`,
`extractNumericAmount`, `formatCryptoAmount`) is referenced by name in the
scripts but its code is not in the repository, so these are modelled from
the spec. -/

/-- Modelled from the spec: the raw amount accepted by `toDecimal` is a
non-negative integer rendered either as a decimal digit string or as a
`0x`-prefixed hexadecimal string; anything else is `MalformedAmount`
(here `none`).  The Swift parser (`extractNumericAmount` /
`decimalFromHex`) is not in the repository. -/
def parseRawAmount (s : List Char) : Option ℕ :=
  if List.isPrefixOf ['0', 'x'] s then parseDigits 16 (s.drop 2)
  else parseDigits 10 s

/-- Modelled from the spec: `toDecimal(raw, decimals)` scales the parsed
raw integer by `10 ^ decimals` in exact (arbitrary-precision) decimal
arithmetic, never binary floating point; embedded as `ℚ`. -/
def toDecimal (s : List Char) (decimals : ℕ) : Option ℚ :=
  (parseRawAmount s).map fun n => (n : ℚ) / 10 ^ decimals

/-- Truncation of a rational toward zero (the rounding mode the spec
requires for display formatting). -/
def ratTrunc (q : ℚ) : ℤ := Int.tdiv q.num q.den

/-- Modelled from the spec: `fromDecimal` is the inverse of `toDecimal`
for display formatting, recovering the raw integer at `decimals`
fractional digits by truncation toward zero.  Its Swift implementation is
not in the repository. -/
def fromDecimal (q : ℚ) (decimals : ℕ) : ℤ := ratTrunc (q * 10 ^ decimals)

/-- Modelled from the spec: the numeric value denoted by the string
`formatAmount(value, decimals, maxFractionDigits)` renders — the value
with its fractional part truncated (never rounded up) to
`maxFractionDigits` digits.  The Swift renderer (`formatCryptoAmount`) is
not in the repository. -/
def formatAmountValue (v : ℚ) (maxFractionDigits : ℕ) : ℚ :=
  (ratTrunc (v * 10 ^ maxFractionDigits) : ℚ) / 10 ^ maxFractionDigits

/-! ## Backoff Tracker (spec section 4.3) -/

/-- Modelled from the spec: backoff configuration `{base, cap}` (the
growth factor is the explicit `2` of the spec's interval formula). -/
structure BackoffConfig where
  base : ℕ
  cap : ℕ
  deriving DecidableEq

/-- Modelled from the spec: per-key retry state
`{consecutiveFailures, currentInterval, nextEligibleAt}`.  Timestamps are
integers so that negative jitter can push `nextEligibleAt` down. -/
structure BackoffTracker where
  consecutiveFailures : ℕ
  currentInterval : ℕ
  nextEligibleAt : ℤ
  deriving DecidableEq

/-- Modelled from the spec: the tracker a key starts with (no failures,
interval at `base`, immediately eligible). -/
def initTracker (cfg : BackoffConfig) : BackoffTracker :=
  { consecutiveFailures := 0, currentInterval := cfg.base, nextEligibleAt := 0 }

/-- Modelled from the spec: `shouldAttempt(key, now)` is true iff
`now ≥ nextEligibleAt`. -/
def shouldAttempt (t : BackoffTracker) (now : ℕ) : Bool :=
  t.nextEligibleAt ≤ (now : ℤ)

/-- Modelled from the spec: `onFailure` increments `consecutiveFailures`,
sets `currentInterval = min(base * 2 ^ consecutiveFailures, cap)` and sets
`nextEligibleAt` after adding symmetric random jitter; the jitter draw is
an explicit argument here (randomness as nondeterminism). -/
def onFailure (cfg : BackoffConfig) (t : BackoffTracker) (now : ℕ) (jitter : ℤ) :
    BackoffTracker :=
  let failures := t.consecutiveFailures + 1
  let interval := min (cfg.base * 2 ^ failures) cfg.cap
  { consecutiveFailures := failures
    currentInterval := interval
    nextEligibleAt := (now : ℤ) + (interval : ℤ) + jitter }

/-- Modelled from the spec: `onSuccess` resets `consecutiveFailures` to 0
and `currentInterval` to `base`. -/
def onSuccess (cfg : BackoffConfig) (t : BackoffTracker) : BackoffTracker :=
  { consecutiveFailures := 0, currentInterval := cfg.base
    nextEligibleAt := t.nextEligibleAt }

/-! ## Data model: chain keys, balance state, cache entries (spec section 3) -/

/-- Modelled from the spec: a trackable balance identifier — network
identifier plus optional asset identifier; structural equality. -/
structure ChainKey where
  network : String
  asset : Option String
  deriving DecidableEq

/-- Modelled from the spec: the published status of a key's balance. -/
inductive BalanceStatus where
  | idle
  | loading
  | loaded
  | failed
  deriving DecidableEq

/-- Modelled from the spec: the error kinds of section 7. -/
inductive ErrorKind where
  | networkTimeout
  | rateLimited
  | malformedResponse
  | malformedAmount
  | allProvidersExhausted
  deriving DecidableEq

/-- Modelled from the spec: per-key published balance state. -/
structure BalanceState where
  status : BalanceStatus
  value : Option ℚ
  lastUpdatedAt : Option ℕ
  lastError : Option ErrorKind
  deriving DecidableEq

/-- Modelled from the spec: per-key cached balance with freshness
metadata. -/
structure CachedBalance where
  value : ℚ
  fetchedAt : ℕ
  ttl : ℕ
  deriving DecidableEq

/-- Modelled from the spec: the three outcomes of a Cache Store `get`. -/
inductive CacheLookup where
  | fresh (v : ℚ)
  | stale (v : ℚ)
  | absent
  deriving DecidableEq

/-- Modelled from the spec: `get(key, now)` classifies the cache entry as
fresh (within `ttl` of `fetchedAt`), stale, or absent. -/
def cacheGet (cache : ChainKey → Option CachedBalance) (k : ChainKey) (now : ℕ) :
    CacheLookup :=
  match cache k with
  | none => .absent
  | some cb => if now - cb.fetchedAt ≤ cb.ttl then .fresh cb.value else .stale cb.value

/-! ## Fetch Task Supervisor / Aggregation Service (spec sections 4.1, 4.4, 5) -/

/-- Modelled from the spec: the state the Aggregation Service owns — the
in-flight task map (association list key ↦ task id), a task-id source, the
log of provider calls issued so far, and the per-key maps of section 3. -/
structure ServiceState where
  inflight : List (ChainKey × ℕ)
  nextTaskId : ℕ
  providerCalls : List ChainKey
  balanceStates : ChainKey → BalanceState
  cache : ChainKey → Option CachedBalance
  backoff : ChainKey → BackoffTracker

/-- Lookup in an association list keyed by `ChainKey`. -/
def lookupKey {α : Type} : List (ChainKey × α) → ChainKey → Option α
  | [], _ => none
  | (k2, v) :: rest, k => if k2 = k then some v else lookupKey rest k

/-- Removal of a key's entries from an association list. -/
def removeKey {α : Type} (m : List (ChainKey × α)) (k : ChainKey) :
    List (ChainKey × α) :=
  m.filter fun p => decide (p.1 ≠ k)

/-- Modelled from the spec: the `idle/failed → loading` transition a task
start writes; other statuses (spec section 4.4 stale path publishes
`loaded` before the background fetch starts) are left alone. -/
def setLoading (bs : BalanceState) : BalanceState :=
  if bs.status = .idle ∨ bs.status = .failed then { bs with status := .loading } else bs

/-- Modelled from the spec: the Supervisor's `start` for one key.  If the
key already has a live task the call is a no-op returning that task's id
(request coalescing); otherwise a fresh task is created, a provider call
is issued for it, and the key's state transitions to `loading`. -/
def startFetch (s : ServiceState) (k : ChainKey) : ServiceState × ℕ :=
  match lookupKey s.inflight k with
  | some tid => (s, tid)
  | none =>
    ({ s with
        inflight := (k, s.nextTaskId) :: s.inflight
        nextTaskId := s.nextTaskId + 1
        providerCalls := k :: s.providerCalls
        balanceStates := fun k2 =>
          if k2 = k then setLoading (s.balanceStates k2) else s.balanceStates k2 },
      s.nextTaskId)

/-- Modelled from the spec: publish a `loaded` value for one key. -/
def publishLoaded (s : ServiceState) (k : ChainKey) (v : ℚ) (now : ℕ) : ServiceState :=
  { s with
      balanceStates := fun k2 =>
        if k2 = k then
          { status := .loaded, value := some v, lastUpdatedAt := some now,
            lastError := none }
        else s.balanceStates k2 }

/-- Modelled from the spec (section 4.4): a refresh request consults the
cache first.  A fresh hit short-circuits with no provider call, updating
the published state from the cache only if it is not already `loaded`
with an equal value; a stale hit publishes the cached value as `loaded`
and triggers a background fetch; an absent entry starts a fetch. -/
def refresh (s : ServiceState) (k : ChainKey) (now : ℕ) : ServiceState :=
  match cacheGet s.cache k now with
  | .fresh v =>
    if (s.balanceStates k).status = .loaded ∧ (s.balanceStates k).value = some v then s
    else publishLoaded s k v now
  | .stale v => (startFetch (publishLoaded s k v now) k).1
  | .absent => (startFetch s k).1

/-- Modelled from the spec (sections 4.1, 5, 7): a task delivering its
result checks, before any state mutation, that it is still the live task
for its key; a cancelled (or superseded) task finds no matching in-flight
entry and discards its result, publishing nothing.  A live task's
completion removes it from the in-flight map, publishes the loaded value,
stores it in the cache with `fetchedAt = now`, and resets the key's
backoff. -/
def completeTask (cfg : BackoffConfig) (ttl : ℕ) (s : ServiceState) (k : ChainKey)
    (tid : ℕ) (v : ℚ) (now : ℕ) : ServiceState :=
  match lookupKey s.inflight k with
  | none => s
  | some tid2 =>
    if tid2 = tid then
      { s with
          inflight := removeKey s.inflight k
          balanceStates := fun k2 =>
            if k2 = k then
              { status := .loaded, value := some v, lastUpdatedAt := some now,
                lastError := none }
            else s.balanceStates k2
          cache := fun k2 =>
            if k2 = k then some { value := v, fetchedAt := now, ttl := ttl }
            else s.cache k2
          backoff := fun k2 =>
            if k2 = k then onSuccess cfg (s.backoff k2) else s.backoff k2 }
    else s

/-- Modelled from the spec: `cancel(key)` removes the key's task from the
in-flight map; the cancelled task will then discard its result. -/
def cancelTask (s : ServiceState) (k : ChainKey) : ServiceState :=
  { s with inflight := removeKey s.inflight k }

/-- Modelled from the spec: `cancelAll()` cancels every live task and
clears the in-flight map, touching nothing else. -/
def cancelAll (s : ServiceState) : ServiceState :=
  { s with inflight := [] }

/-- Modelled from the spec: the operations collaborators can issue
against the service. -/
inductive Op where
  | start (k : ChainKey)
  | refresh (k : ChainKey) (now : ℕ)
  | complete (k : ChainKey) (tid : ℕ) (v : ℚ) (now : ℕ)
  | cancel (k : ChainKey)
  | cancelAll

/-- Modelled from the spec: one service step. -/
def applyOp (cfg : BackoffConfig) (ttl : ℕ) (s : ServiceState) : Op → ServiceState
  | .start k => (startFetch s k).1
  | .refresh k now => refresh s k now
  | .complete k tid v now => completeTask cfg ttl s k tid v now
  | .cancel k => cancelTask s k
  | .cancelAll => cancelAll s

/-- Modelled from the spec: a run of service operations. -/
def runOps (cfg : BackoffConfig) (ttl : ℕ) (s : ServiceState) : List Op → ServiceState
  | [] => s
  | op :: rest => runOps cfg ttl (applyOp cfg ttl s op) rest

/-- The single-task-per-key invariant: the in-flight map's keys are
pairwise distinct, so at most one live task exists per `ChainKey`. -/
def KeysNodup (s : ServiceState) : Prop := (s.inflight.map Prod.fst).Nodup

/-! ## `src/scripts/contrast_check.py` -/

/-- One slice `t[i:i+2]` of a character list, as Python slicing yields
(shorter or empty near the end of the string). -/
def slice2 (t : List Char) (i : ℕ) : List Char := (t.drop i).take 2

/-- Embeds `hex_to_rgb`: strip leading `#` characters, then parse the
slices `[0:2]`, `[2:4]`, `[4:6]` as hexadecimal integers; `none` models
the `ValueError` Python's `int(s, 16)` raises on a malformed slice. -/
def hex_to_rgb (s : List Char) : Option (ℕ × ℕ × ℕ) :=
  let t := s.dropWhile fun c => c = '#'
  match parseDigits 16 (slice2 t 0), parseDigits 16 (slice2 t 2),
      parseDigits 16 (slice2 t 4) with
  | some r, some g, some b => some (r, g, b)
  | _, _, _ => none

/-- Embeds the nested `channel` helper of `luminance`: scale to `[0,1]`
and linearize, with the float arithmetic read over `ℝ`. -/
noncomputable def channel (c : ℕ) : ℝ :=
  let x := (c : ℝ) / 255
  if x ≤ 0.03928 then x / 12.92 else ((x + 0.055) / 1.055) ^ (2.4 : ℝ)

/-- Embeds `luminance`: the WCAG relative-luminance weighting. -/
noncomputable def luminance (r g b : ℕ) : ℝ :=
  0.2126 * channel r + 0.7152 * channel g + 0.0722 * channel b

/-- Embeds `contrast_ratio`: parse both colors, order the two luminances
with `max` and `min`, and divide; `none` when either color fails to
parse. -/
noncomputable def contrast_ratio (c1 c2 : List Char) : Option ℝ :=
  match hex_to_rgb c1, hex_to_rgb c2 with
  | some (r1, g1, b1), some (r2, g2, b2) =>
    let lum1 := luminance r1 g1 b1
    let lum2 := luminance r2 g2 b2
    some ((max lum1 lum2 + 0.05) / (min lum1 lum2 + 0.05))
  | _, _ => none

/-! ## `src/swift-app/fix_previews.py` -/

/-- Python `str.split(sep)` with a one-character separator: always yields
at least one (possibly empty) piece. -/
def splitLines : List Char → List (List Char)
  | [] => [[]]
  | c :: cs =>
    match splitLines cs with
    | [] => [[c]]
    | l :: ls => if c = '\n' then [] :: l :: ls else (c :: l) :: ls

/-- Python `'\n'.join(pieces)`. -/
def joinLines : List (List Char) → List Char
  | [] => []
  | [l] => l
  | l :: l2 :: ls => l ++ '\n' :: joinLines (l2 :: ls)

/-- The whitespace characters Python's `str.strip()` removes. -/
def isPySpace (c : Char) : Bool :=
  c = ' ' ∨ c = '\t' ∨ c = '\n' ∨ c = '\r' ∨ c = '\x0b' ∨ c = '\x0c'

/-- Python `line.strip()`: drop whitespace from both ends. -/
def pyStrip (l : List Char) : List Char :=
  ((l.dropWhile isPySpace).reverse.dropWhile isPySpace).reverse

/-- The test `line.strip().startswith('#Preview')` of `fix_preview`. -/
def isPreviewLine (l : List Char) : Bool :=
  List.isPrefixOf "#Preview".data (pyStrip l)

/-- The inner `while` of `fix_preview`: starting at a `#Preview` line,
copy lines while tracking the running brace count and whether an opening
brace has been seen, stopping (inclusively) at the line that balances the
braces; returns the copied lines and the remaining lines.  The count is
an integer, as in Python. -/
def scanPreviewBlock : List (List Char) → ℤ → Bool → List (List Char) × List (List Char)
  | [], _, _ => ([], [])
  | l :: ls, bc, started =>
    let bc2 := bc + (l.count '{' : ℤ) - (l.count '}' : ℤ)
    let started2 := started || l.contains '{'
    if started2 ∧ bc2 = 0 then ([l], ls)
    else
      let rest := scanPreviewBlock ls bc2 started2
      (l :: rest.1, rest.2)

/-- The remaining-lines component of `scanPreviewBlock` is a suffix of
the input, so it is never longer. -/
theorem scanPreviewBlock_rest_le (ls : List (List Char)) (bc : ℤ) (started : Bool) :
    (scanPreviewBlock ls bc started).2.length ≤ ls.length := by
  induction ls generalizing bc started with
  | nil => simp [scanPreviewBlock]
  | cons l ls ih =>
    simp only [scanPreviewBlock]
    split
    · simp
    · exact le_trans (ih _ _) (Nat.le_succ ls.length)

/-- On a nonempty input the remaining lines are strictly fewer than the
input lines. -/
theorem scanPreviewBlock_rest_lt (l : List Char) (ls : List (List Char)) (bc : ℤ)
    (started : Bool) :
    (scanPreviewBlock (l :: ls) bc started).2.length < (l :: ls).length := by
  simp only [scanPreviewBlock]
  split
  · simp
  · exact Nat.lt_succ_of_le (scanPreviewBlock_rest_le ls _ _)

/-- The outer `while` of `fix_preview` over the split lines: a line whose
stripped form starts with `#Preview` is wrapped between `#if false` and
`#endif` together with its brace-balanced block; every other line is
copied unchanged. -/
def fixLoop : List (List Char) → List (List Char)
  | [] => []
  | l :: ls =>
    if isPreviewLine l then
      "#if false".data ::
        ((scanPreviewBlock (l :: ls) 0 false).1 ++
          "#endif".data :: fixLoop (scanPreviewBlock (l :: ls) 0 false).2)
    else l :: fixLoop ls
  termination_by ls => ls.length
  decreasing_by
    · exact scanPreviewBlock_rest_lt l ls 0 false
    · simp

/-- Embeds `fix_preview`: split on newlines, rewrite, join. -/
def fix_preview (s : List Char) : List Char := joinLines (fixLoop (splitLines s))

/-! ## `src/scripts/phase6b_remove_balance_methods.py`, `remove_method` -/

/-- First index at which `pat` occurs as a contiguous substring of the
input, scanning left to right; embeds `re.search(pat, content).start()`
for the literal patterns `remove_method` builds (its method names are
alphanumeric, so the only regex metacharacter is the escaped `\(`). -/
def findSub (pat : List Char) : List Char → Option ℕ
  | [] => if List.isPrefixOf pat ([] : List Char) then some 0 else none
  | c :: rest =>
    if List.isPrefixOf pat (c :: rest) then some 0
    else (findSub pat rest).map (· + 1)

/-- The brace scan of `remove_method`: walk the characters from the match
start with a running (integer) brace count and an `in_method` flag set by
the first `{`; a `}` that returns the count to zero after the flag is set
yields `some` of the index one past it, and exhausting the characters
yields `none` (Python leaves `end_idx` at `start_idx`, so no removal
happens). -/
def findEnd : List Char → ℤ → Bool → ℕ → Option ℕ
  | [], _, _, _ => none
  | c :: cs, bc, inMethod, i =>
    if c = '{' then findEnd cs (bc + 1) true (i + 1)
    else if c = '}' then
      if inMethod ∧ bc - 1 = 0 then some (i + 1)
      else findEnd cs (bc - 1) inMethod (i + 1)
    else findEnd cs bc inMethod (i + 1)

/-- One pattern attempt of `remove_method`: search for the pattern, scan
for the balancing brace, and if one is found past the match start, splice
the span out; `none` reports that this pattern produced no removal and
the next one is tried. -/
def tryPattern (content pat : List Char) : Option (List Char) :=
  match findSub pat content with
  | none => none
  | some s =>
    match findEnd (content.drop s) 0 false s with
    | some e => if s < e then some (content.take s ++ content.drop e) else none
    | none => none

/-- The signature pattern `\n    @MainActor\n    private func NAME(`. -/
def methodPattern1 (name : List Char) : List Char :=
  "\n    @MainActor\n    private func ".data ++ name ++ ['(']

/-- The signature pattern `\n    private func NAME(`. -/
def methodPattern2 (name : List Char) : List Char :=
  "\n    private func ".data ++ name ++ ['(']

/-- Embeds `remove_method`: try the `@MainActor` pattern, then the plain
pattern; return the input unchanged when neither produces a removal. -/
def remove_method (content name : List Char) : List Char :=
  match tryPattern content (methodPattern1 name) with
  | some r => r
  | none =>
    match tryPattern content (methodPattern2 name) with
    | some r => r
    | none => content

/-! ## Concrete sample inputs used by witness theorems -/

/-- A sample native-asset chain key. -/
def btcKey : ChainKey := { network := "bitcoin", asset := none }

/-- A second, distinct sample chain key. -/
def ethKey : ChainKey := { network := "ethereum", asset := none }

/-- A sample backoff configuration. -/
def sampleCfg : BackoffConfig := { base := 1000, cap := 60000 }

/-- The all-absent initial balance state. -/
def idleState : BalanceState :=
  { status := .idle, value := none, lastUpdatedAt := none, lastError := none }

/-- A sample service state with one live task (id 7, for `btcKey`) and a
cache entry for `btcKey` fetched at time 10 with ttl 100. -/
def sampleService : ServiceState :=
  { inflight := [(btcKey, 7)]
    nextTaskId := 8
    providerCalls := [btcKey]
    balanceStates := fun _ => idleState
    cache := fun k =>
      if k = btcKey then some { value := 5, fetchedAt := 10, ttl := 100 } else none
    backoff := fun _ => initTracker sampleCfg }

/-! ## Supporting lemmas -/

/-- A rational that is an integer truncates to itself. -/
theorem ratTrunc_intCast (n : ℤ) : ratTrunc (n : ℚ) = n := by
  unfold ratTrunc
  rw [Rat.num_intCast, Rat.den_intCast]
  exact Int.tdiv_one n

/-- A rational that is a natural number truncates to itself. -/
theorem ratTrunc_natCast (n : ℕ) : ratTrunc (n : ℚ) = n := by
  have := ratTrunc_intCast (n : ℤ)
  rwa [Int.cast_natCast] at this

/-- Truncation toward zero never exceeds a non-negative rational. -/
theorem ratTrunc_le_self {q : ℚ} (hq : 0 ≤ q) : (ratTrunc q : ℚ) ≤ q := by
  have hnum : 0 ≤ q.num := Rat.num_nonneg.mpr hq
  have hden : (0 : ℤ) ≤ (q.den : ℤ) := Int.natCast_nonneg _
  have heq : ratTrunc q = ⌊q⌋ := by
    unfold ratTrunc
    rw [Int.tdiv_eq_ediv hnum hden, Rat.floor_def]
  rw [heq]
  exact_mod_cast Int.floor_le q

/-! ## Claim C5 — `toDecimal` exact scaling -/

/-- C5: `toDecimal "0x2540be400" 9 = 10`, and in general `toDecimal`
computes `raw / 10 ^ decimals` exactly in arbitrary-precision rational
arithmetic: scaling back up by `10 ^ decimals` recovers the parsed raw
integer with no precision loss. -/
theorem claim_C5 :
    toDecimal "0x2540be400".data 9 = some 10 ∧
    ∀ (s : List Char) (n d : ℕ), parseRawAmount s = some n →
      toDecimal s d = some ((n : ℚ) / 10 ^ d) ∧
      ((n : ℚ) / 10 ^ d) * 10 ^ d = (n : ℚ) := by
  constructor
  · have h : parseRawAmount "0x2540be400".data = some 10000000000 := by decide
    simp only [toDecimal, h, Option.map_some]
    norm_num
  · intro s n d h
    refine ⟨by simp [toDecimal, h], ?_⟩
    exact div_mul_cancel₀ _ (by positivity)

/-- C5 witness: the general component of C5 applied at the concrete raw
string `"42"` with 3 decimals. -/
theorem claim_C5_witness :
    parseRawAmount "42".data = some 42 ∧
    toDecimal "42".data 3 = some ((42 : ℚ) / 10 ^ 3) :=
  ⟨by decide, (claim_C5.2 "42".data 42 3 (by decide)).1⟩

/-! ## Claim C6 — `toDecimal` / `fromDecimal` round trip -/

/-- C6: `fromDecimal` inverts `toDecimal` exactly on integer raw values
at full precision; in particular raw `"10000000000"` at 8 decimals maps
to `100` and `fromDecimal 100 8` maps back to `10000000000`. -/
theorem claim_C6 :
    (∀ (n d : ℕ), fromDecimal ((n : ℚ) / 10 ^ d) d = n) ∧
    toDecimal "10000000000".data 8 = some 100 ∧
    fromDecimal 100 8 = 10000000000 := by
  have key : ∀ (n d : ℕ), fromDecimal ((n : ℚ) / 10 ^ d) d = n := by
    intro n d
    unfold fromDecimal
    rw [div_mul_cancel₀ _ (by positivity : (10 : ℚ) ^ d ≠ 0)]
    exact ratTrunc_natCast n
  refine ⟨key, ?_, ?_⟩
  · have h : parseRawAmount "10000000000".data = some 10000000000 := by decide
    simp only [toDecimal, h, Option.map_some]
    norm_num
  · have e : (100 : ℚ) = ((10000000000 : ℕ) : ℚ) / 10 ^ 8 := by norm_num
    rw [e]
    exact_mod_cast key 10000000000 8

/-! ## Claim C7 — display formatting truncates, never rounds up -/

/-- C7: the value denoted by the rendered display string is obtained by
truncation toward zero, so it never exceeds the true balance value. -/
theorem claim_C7 (v : ℚ) (f : ℕ) (h : 0 ≤ v) : formatAmountValue v f ≤ v := by
  have hpow : (0 : ℚ) < 10 ^ f := by positivity
  have htr : (ratTrunc (v * 10 ^ f) : ℚ) ≤ v * 10 ^ f :=
    ratTrunc_le_self (by positivity)
  calc formatAmountValue v f
      = (ratTrunc (v * 10 ^ f) : ℚ) / 10 ^ f := rfl
    _ ≤ (v * 10 ^ f) / 10 ^ f := by gcongr
    _ = v := by field_simp

/-- C7 witness: truncating `1.99` to one fractional digit displays a
value no greater than `1.99`. -/
theorem claim_C7_witness :
    (0 : ℚ) ≤ 199 / 100 ∧ formatAmountValue (199 / 100) 1 ≤ 199 / 100 :=
  ⟨by norm_num, claim_C7 (199 / 100) 1 (by norm_num)⟩

/-! ## Claim C3 — backoff monotonicity, cap, and reset -/

/-- C3: `onFailure` increments `consecutiveFailures` and computes
`currentInterval = min(base * 2 ^ consecutiveFailures, cap)`; across any
two consecutive failures the interval is non-decreasing and never exceeds
`cap` (so along every sequence of consecutive failures it is
non-decreasing and bounded by `cap`); a single `onSuccess` resets
`consecutiveFailures` to 0 and `currentInterval` to `base`. -/
theorem claim_C3 (cfg : BackoffConfig) (t : BackoffTracker) (now : ℕ) (j : ℤ)
    (now2 : ℕ) (j2 : ℤ) :
    (onFailure cfg t now j).consecutiveFailures = t.consecutiveFailures + 1 ∧
    (onFailure cfg t now j).currentInterval =
      min (cfg.base * 2 ^ (t.consecutiveFailures + 1)) cfg.cap ∧
    (onFailure cfg t now j).currentInterval ≤ cfg.cap ∧
    (onFailure cfg t now j).currentInterval ≤
      (onFailure cfg (onFailure cfg t now j) now2 j2).currentInterval ∧
    (onSuccess cfg t).consecutiveFailures = 0 ∧
    (onSuccess cfg t).currentInterval = cfg.base := by
  refine ⟨rfl, rfl, min_le_right _ _, ?_, rfl, rfl⟩
  simp only [onFailure]
  exact min_le_min
    (Nat.mul_le_mul le_rfl (Nat.pow_le_pow_right (by norm_num) (Nat.le_succ _)))
    le_rfl

/-! ## Claim C2 — a fresh cache hit never issues a provider call -/

/-- C2: a refresh at time `now` against a cache entry with
`now - fetchedAt ≤ ttl` issues no provider call (and starts no task); the
request is satisfied from the cache alone, the key's published state
ending `loaded` with the cached value. -/
theorem claim_C2 (s : ServiceState) (k : ChainKey) (now : ℕ) (cb : CachedBalance)
    (hcb : s.cache k = some cb) (hfresh : now - cb.fetchedAt ≤ cb.ttl) :
    (refresh s k now).providerCalls = s.providerCalls ∧
    (refresh s k now).inflight = s.inflight ∧
    ((refresh s k now).balanceStates k).status = .loaded ∧
    ((refresh s k now).balanceStates k).value = some cb.value := by
  have hget : cacheGet s.cache k now = .fresh cb.value := by
    simp [cacheGet, hcb, hfresh]
  simp only [refresh, hget]
  split
  next hcond => exact ⟨rfl, rfl, hcond.1, hcond.2⟩
  next hcond => simp [publishLoaded]

/-- C2 witness: C2 applied to the sample service, whose `btcKey` entry
was fetched at 10 with ttl 100, refreshed at time 50. -/
theorem claim_C2_witness :
    sampleService.cache btcKey = some { value := 5, fetchedAt := 10, ttl := 100 } ∧
    (refresh sampleService btcKey 50).providerCalls = sampleService.providerCalls ∧
    ((refresh sampleService btcKey 50).balanceStates btcKey).value = some 5 := by
  have h := claim_C2 sampleService btcKey 50 { value := 5, fetchedAt := 10, ttl := 100 }
    (by decide) (by decide)
  exact ⟨by decide, h.1, h.2.2.2⟩

/-! ## Claim C1 — request coalescing and the single-task invariant -/

/-- A key whose lookup fails is not among the map's keys. -/
theorem not_mem_of_lookupKey_none {α : Type} {m : List (ChainKey × α)} {k : ChainKey}
    (h : lookupKey m k = none) : k ∉ m.map Prod.fst := by
  induction m with
  | nil => simp
  | cons p rest ih =>
    obtain ⟨k2, v⟩ := p
    simp only [lookupKey] at h
    split at h
    · exact absurd h (by simp)
    next hne =>
      simp only [List.map_cons, List.mem_cons]
      rintro (h1 | h1)
      · exact hne h1.symm
      · exact ih h h1

/-- Removing a key's entries preserves distinctness of the map's keys. -/
theorem nodup_removeKey {α : Type} (m : List (ChainKey × α)) (k : ChainKey)
    (h : (m.map Prod.fst).Nodup) : ((removeKey m k).map Prod.fst).Nodup :=
  h.sublist ((List.filter_sublist m).map Prod.fst)

/-- `start` preserves the single-task-per-key invariant. -/
theorem startFetch_nodup (s : ServiceState) (k : ChainKey) (h : KeysNodup s) :
    KeysNodup (startFetch s k).1 := by
  unfold KeysNodup startFetch
  cases hl : lookupKey s.inflight k with
  | some tid => exact h
  | none =>
    simp only [List.map_cons, List.nodup_cons]
    exact ⟨not_mem_of_lookupKey_none hl, h⟩

/-- Every service operation preserves the single-task-per-key
invariant. -/
theorem applyOp_nodup (cfg : BackoffConfig) (ttl : ℕ) (s : ServiceState) (op : Op)
    (h : KeysNodup s) : KeysNodup (applyOp cfg ttl s op) := by
  cases op with
  | start k => exact startFetch_nodup s k h
  | refresh k now =>
    show KeysNodup (refresh s k now)
    cases hget : cacheGet s.cache k now with
    | fresh v =>
      simp only [refresh, hget]
      split
      · exact h
      · exact h
    | stale v =>
      simp only [refresh, hget]
      exact startFetch_nodup _ k h
    | absent =>
      simp only [refresh, hget]
      exact startFetch_nodup s k h
  | complete k tid v now =>
    show KeysNodup (completeTask cfg ttl s k tid v now)
    cases hl : lookupKey s.inflight k with
    | none =>
      simp only [completeTask, hl]
      exact h
    | some tid2 =>
      simp only [completeTask, hl]
      split
      · exact nodup_removeKey s.inflight k h
      · exact h
  | cancel k => exact nodup_removeKey s.inflight k h
  | cancelAll => simp [KeysNodup, applyOp, cancelAll]

/-- Any run of service operations preserves the invariant. -/
theorem runOps_nodup (cfg : BackoffConfig) (ttl : ℕ) (ops : List Op)
    (s : ServiceState) (h : KeysNodup s) : KeysNodup (runOps cfg ttl s ops) := by
  induction ops generalizing s with
  | nil => exact h
  | cons op rest ih => exact ih _ (applyOp_nodup cfg ttl s op h)

/-- C1: the in-flight map never holds two live tasks for one key along
any run of service operations, and `start` on a key with a live task is a
no-op that returns the existing task (no new task, no provider call, the
state is untouched) — the caller joins the existing task. -/
theorem claim_C1 :
    (∀ (s : ServiceState) (k : ChainKey) (tid : ℕ),
      lookupKey s.inflight k = some tid → startFetch s k = (s, tid)) ∧
    (∀ (cfg : BackoffConfig) (ttl : ℕ) (s : ServiceState) (ops : List Op),
      KeysNodup s → KeysNodup (runOps cfg ttl s ops)) := by
  constructor
  · intro s k tid h
    unfold startFetch
    rw [h]
  · intro cfg ttl s ops h
    exact runOps_nodup cfg ttl ops s h

/-- C1 witness: starting `btcKey`, whose task 7 is already live in the
sample service, joins task 7 and changes nothing; and a concrete run of
operations keeps the in-flight keys distinct. -/
theorem claim_C1_witness :
    startFetch sampleService btcKey = (sampleService, 7) ∧
    KeysNodup (runOps sampleCfg 60 sampleService [Op.start ethKey, Op.cancelAll]) :=
  ⟨claim_C1.1 sampleService btcKey 7 (by decide),
   claim_C1.2 sampleCfg 60 sampleService [Op.start ethKey, Op.cancelAll]
     (by unfold KeysNodup; decide)⟩

/-! ## Claim C4 — cancellation publishes nothing -/

/-- C4: `cancelAll` empties the in-flight map; a task that finds no live
entry for its key (it was cancelled) publishes no state change at all
when its result arrives; in particular after `cancelAll` every completion
— for any previously in-flight key — leaves the whole state (balance
states, cache, backoff) unchanged. -/
theorem claim_C4 (cfg : BackoffConfig) (ttl : ℕ) (s : ServiceState) (k : ChainKey)
    (tid : ℕ) (v : ℚ) (now : ℕ) :
    (cancelAll s).inflight = [] ∧
    (lookupKey s.inflight k = none → completeTask cfg ttl s k tid v now = s) ∧
    completeTask cfg ttl (cancelAll s) k tid v now = cancelAll s := by
  refine ⟨rfl, ?_, ?_⟩
  · intro h
    unfold completeTask
    rw [h]
  · rfl

/-- C4 witness: a completion for `ethKey`, which has no live task in the
sample service, mutates nothing. -/
theorem claim_C4_witness :
    completeTask sampleCfg 60 sampleService ethKey 3 5 99 = sampleService :=
  (claim_C4 sampleCfg 60 sampleService ethKey 3 5 99).2.1 (by decide)

/-! ## Claim C8 — `contrast_ratio` is commutative -/

/-- C8: `contrast_ratio` is commutative in its two color arguments:
ordering the two luminances with `max` and `min` before dividing makes
the result independent of argument order (both calls also fail together
on unparsable colors). -/
theorem claim_C8 (c1 c2 : List Char) : contrast_ratio c1 c2 = contrast_ratio c2 c1 := by
  cases h1 : hex_to_rgb c1 with
  | none =>
    cases h2 : hex_to_rgb c2 with
    | none => simp [contrast_ratio, h1, h2]
    | some p =>
      obtain ⟨r, g, b⟩ := p
      simp [contrast_ratio, h1, h2]
  | some p1 =>
    obtain ⟨r1, g1, b1⟩ := p1
    cases h2 : hex_to_rgb c2 with
    | none => simp [contrast_ratio, h1, h2]
    | some p2 =>
      obtain ⟨r2, g2, b2⟩ := p2
      simp only [contrast_ratio, h1, h2]
      rw [max_comm, min_comm]

/-! ## Claim C9 — `fix_preview` is the identity without `#Preview` lines -/

/-- `splitLines` always yields at least one piece. -/
theorem splitLines_ne_nil (s : List Char) : splitLines s ≠ [] := by
  cases s with
  | nil => simp [splitLines]
  | cons c cs =>
    simp only [splitLines]
    split
    · simp
    · split <;> simp

/-- Joining the split pieces with newlines reproduces the string, as in
Python `'\n'.join(s.split('\n')) == s`. -/
theorem joinLines_splitLines (s : List Char) : joinLines (splitLines s) = s := by
  induction s with
  | nil => rfl
  | cons c cs ih =>
    cases h : splitLines cs with
    | nil => exact absurd h (splitLines_ne_nil cs)
    | cons l ls =>
      rw [h] at ih
      by_cases hc : c = '\n'
      · subst hc
        simp only [splitLines, h, if_pos]
        show '\n' :: joinLines (l :: ls) = '\n' :: cs
        rw [ih]
      · simp only [splitLines, h, if_neg hc]
        cases ls with
        | nil =>
          show c :: l = c :: cs
          simp only [joinLines] at ih
          rw [ih]
        | cons l2 ls2 =>
          show (c :: l) ++ '\n' :: joinLines (l2 :: ls2) = c :: cs
          simp only [joinLines] at ih
          simp [ih]

/-- When no line is a `#Preview` line the rewriting loop copies every
line unchanged. -/
theorem fixLoop_eq_self (ls : List (List Char))
    (h : ∀ l ∈ ls, isPreviewLine l = false) : fixLoop ls = ls := by
  induction ls with
  | nil => simp [fixLoop]
  | cons l rest ih =>
    rw [fixLoop, if_neg (by simp [h l (List.mem_cons_self l rest)])]
    rw [ih fun l2 hl2 => h l2 (List.mem_cons_of_mem l hl2)]

/-- C9: `fix_preview` is the identity on any text none of whose lines,
after stripping, starts with `#Preview`. -/
theorem claim_C9 (s : List Char)
    (h : ∀ l ∈ splitLines s, isPreviewLine l = false) : fix_preview s = s := by
  unfold fix_preview
  rw [fixLoop_eq_self _ h, joinLines_splitLines]

/-- C9 witness: C9 applied to a concrete two-line Swift fragment with no
`#Preview` line. -/
theorem claim_C9_witness :
    (∀ l ∈ splitLines "import SwiftUI\nstruct A".data, isPreviewLine l = false) ∧
    fix_preview "import SwiftUI\nstruct A".data = "import SwiftUI\nstruct A".data :=
  ⟨by decide, claim_C9 "import SwiftUI\nstruct A".data (by decide)⟩

/-! ## Claim C10 — `remove_method` only deletes one contiguous span -/

/-- A successful brace scan ends strictly past its starting index and
within the scanned characters. -/
theorem findEnd_bounds (cs : List Char) (bc : ℤ) (inMethod : Bool) (i e : ℕ)
    (h : findEnd cs bc inMethod i = some e) : i < e ∧ e ≤ i + cs.length := by
  induction cs generalizing bc inMethod i with
  | nil => simp [findEnd] at h
  | cons c rest ih =>
    simp only [findEnd] at h
    split at h
    · obtain ⟨h1, h2⟩ := ih _ _ _ h
      constructor <;> [omega; simpa [Nat.add_comm, Nat.add_left_comm] using h2]
    · split at h
      · split at h
        · obtain rfl : i + 1 = e := Option.some.inj h
          simp
        · obtain ⟨h1, h2⟩ := ih _ _ _ h
          constructor <;> [omega; simpa [Nat.add_comm, Nat.add_left_comm] using h2]
      · obtain ⟨h1, h2⟩ := ih _ _ _ h
        constructor <;> [omega; simpa [Nat.add_comm, Nat.add_left_comm] using h2]

/-- A found substring index is within the searched characters. -/
theorem findSub_le (pat hay : List Char) (s : ℕ) (h : findSub pat hay = some s) :
    s ≤ hay.length := by
  induction hay generalizing s with
  | nil =>
    simp only [findSub] at h
    split at h
    · obtain rfl : (0 : ℕ) = s := Option.some.inj h
      simp
    · exact absurd h (by simp)
  | cons c rest ih =>
    simp only [findSub] at h
    split at h
    · obtain rfl : (0 : ℕ) = s := Option.some.inj h
      simp
    · obtain ⟨s2, hs2, rfl⟩ := Option.map_eq_some'.mp h
      simpa using Nat.succ_le_succ (ih s2 hs2)

/-- A successful pattern attempt splices out one contiguous span. -/
theorem tryPattern_some (content pat r : List Char)
    (h : tryPattern content pat = some r) :
    ∃ i j, i ≤ j ∧ r = content.take i ++ content.drop j := by
  unfold tryPattern at h
  cases hfs : findSub pat content with
  | none => simp only [hfs] at h; exact absurd h (by simp)
  | some s =>
    simp only [hfs] at h
    cases hfe : findEnd (content.drop s) 0 false s with
    | none => rw [hfe] at h; exact absurd h (by simp)
    | some e =>
      simp only [hfe] at h
      split at h
      next hlt =>
        exact ⟨s, e, Nat.le_of_lt hlt, (Option.some.inj h).symm⟩
      · exact absurd h (by simp)

/-- C10: `remove_method` returns the input with at most one contiguous
substring removed, so the result is never longer than the input, and when
neither signature pattern occurs the input is returned unchanged. -/
theorem claim_C10 (content name : List Char) :
    (∃ i j, i ≤ j ∧
      remove_method content name = content.take i ++ content.drop j) ∧
    (remove_method content name).length ≤ content.length ∧
    (findSub (methodPattern1 name) content = none →
      findSub (methodPattern2 name) content = none →
      remove_method content name = content) := by
  have hex : ∃ i j, i ≤ j ∧
      remove_method content name = content.take i ++ content.drop j := by
    unfold remove_method
    cases h1 : tryPattern content (methodPattern1 name) with
    | some r => exact tryPattern_some content _ r h1
    | none =>
      cases h2 : tryPattern content (methodPattern2 name) with
      | some r => exact tryPattern_some content _ r h2
      | none => exact ⟨0, 0, le_refl 0, by simp⟩
  refine ⟨hex, ?_, ?_⟩
  · obtain ⟨i, j, hij, he⟩ := hex
    rw [he]
    simp only [List.length_append, List.length_take, List.length_drop]
    omega
  · intro hn1 hn2
    unfold remove_method tryPattern
    rw [hn1, hn2]

/-- C10 witness: neither signature pattern occurs in a short input, and
`remove_method` returns it unchanged. -/
theorem claim_C10_witness :
    findSub (methodPattern1 "foo".data) "hello".data = none ∧
    findSub (methodPattern2 "foo".data) "hello".data = none ∧
    remove_method "hello".data "foo".data = "hello".data :=
  ⟨by decide, by decide, (claim_C10 "hello".data "foo".data).2.2 (by decide) (by decide)⟩
